import Mathlib

/-!
Verification of the go-rakis HTTP/1.1 server core: the segment-trie router
(`segmenttree/segment_tree.go`), the request parser (`parseRequest`) and the
response serializer (`respond`) of the server package.  Go byte slices and
strings are modelled as `List Char`, Go maps as association lists whose
update/delete operations mirror Go map semantics (the list order stands in
for Go's unspecified iteration order).
-/

namespace GoRakis

/-- Go strings / byte slices on the wire, modelled as lists of characters. -/
abbrev Bytes := List Char

/-- Lookup in an association list, modelling a Go `map[string]V` read. -/
def assocLookup {α : Type} : List (Bytes × α) → Bytes → Option α
  | [], _ => none
  | (k, v) :: rest, key => if k = key then some v else assocLookup rest key

/-- Map write `m[key] = v`: replace the first binding in place, else append. -/
def assocSet {α : Type} : List (Bytes × α) → Bytes → α → List (Bytes × α)
  | [], key, v => [(key, v)]
  | (k, w) :: rest, key, v =>
    if k = key then (key, v) :: rest else (k, w) :: assocSet rest key v

/-- Map delete `delete(m, key)`: remove the first binding for `key`. -/
def assocErase {α : Type} : List (Bytes × α) → Bytes → List (Bytes × α)
  | [], _ => []
  | (k, w) :: rest, key => if k = key then rest else (k, w) :: assocErase rest key

theorem assocLookup_set_self {α : Type} (l : List (Bytes × α)) (k : Bytes) (v : α) :
    assocLookup (assocSet l k v) k = some v := by
  induction l with
  | nil => simp [assocSet, assocLookup]
  | cons hd tl ih =>
      obtain ⟨k', v'⟩ := hd
      by_cases h : k' = k <;> simp [assocSet, assocLookup, h, ih]

theorem assocLookup_set_ne {α : Type} (l : List (Bytes × α)) (k k' : Bytes) (v : α)
    (h : k' ≠ k) : assocLookup (assocSet l k v) k' = assocLookup l k' := by
  induction l with
  | nil =>
      have : ¬ k = k' := fun hh => h hh.symm
      simp [assocSet, assocLookup, this]
  | cons hd tl ih =>
      obtain ⟨k₀, v₀⟩ := hd
      by_cases h0 : k₀ = k
      · subst h0
        have : ¬ k₀ = k' := fun hh => h hh.symm
        simp [assocSet, assocLookup, this]
      · simp [assocSet, assocLookup, h0, ih]

theorem assocLookup_erase_ne {α : Type} (l : List (Bytes × α)) (k k' : Bytes)
    (h : k' ≠ k) : assocLookup (assocErase l k) k' = assocLookup l k' := by
  induction l with
  | nil => simp [assocErase, assocLookup]
  | cons hd tl ih =>
      obtain ⟨k₀, v₀⟩ := hd
      by_cases h0 : k₀ = k
      · subst h0
        have : ¬ k₀ = k' := fun hh => h hh.symm
        simp [assocErase, assocLookup, this]
      · simp [assocErase, assocLookup, h0, ih]

/-! ## The segment trie (`app/segmenttree/segment_tree.go`)

Handlers are opaque function values in Go; they are modelled by numeric
identifiers so that distinct registrations are distinguishable. -/

abbrev HandlerId := Nat

/-- Go `types.Method` is a plain string type. -/
abbrev Method := Bytes

/-- The route-parameter map built during a search. -/
abbrev Params := List (Bytes × Bytes)

/-- `SegmentNode` of `segment_tree.go`: literal children, parameter children
(keyed by parameter name), the node's own parameter name, the per-method
handler map and the end-of-path flag. -/
inductive SegmentNode : Type where
  | mk (children : List (Bytes × SegmentNode))
       (parameterChildren : List (Bytes × SegmentNode))
       (paramName : Bytes)
       (handlers : List (Method × HandlerId))
       (isEndOfPath : Bool)

def SegmentNode.children : SegmentNode → List (Bytes × SegmentNode)
  | .mk c _ _ _ _ => c

def SegmentNode.parameterChildren : SegmentNode → List (Bytes × SegmentNode)
  | .mk _ p _ _ _ => p

def SegmentNode.paramName : SegmentNode → Bytes
  | .mk _ _ n _ _ => n

def SegmentNode.handlers : SegmentNode → List (Method × HandlerId)
  | .mk _ _ _ h _ => h

def SegmentNode.isEndOfPath : SegmentNode → Bool
  | .mk _ _ _ _ e => e

/-- `newNode()` of the Go source. -/
def newNode : SegmentNode := .mk [] [] [] [] false

/-- `strings.Split(path, "/")`: split on every slash, preserving empty
segments (and producing one empty segment for the empty string). -/
def splitOnSlash : Bytes → List Bytes
  | [] => [[]]
  | c :: rest =>
    if c = '/' then [] :: splitOnSlash rest
    else
      match splitOnSlash rest with
      | [] => [[c]]
      | s :: ss => (c :: s) :: ss

/-- The walk of `SegmentTree.Insert` over one node per segment: a segment
starting with a colon creates/reuses a parameter branch keyed by the name
after the colon, any other segment a literal branch keyed by its exact text;
the final node is marked end-of-path and gets the handler for the method. -/
def insertNode : SegmentNode → List Bytes → Method → HandlerId → SegmentNode
  | .mk cs pcs pn hs _, [], m, h => .mk cs pcs pn (assocSet hs m h) true
  | .mk cs pcs pn hs e, seg :: rest, m, h =>
    if seg.head? = some ':' then
      let name := seg.drop 1
      let child := (assocLookup pcs name).getD (.mk [] [] name [] false)
      .mk cs (assocSet pcs name (insertNode child rest m h)) pn hs e
    else
      let child := (assocLookup cs seg).getD newNode
      .mk (assocSet cs seg (insertNode child rest m h)) pcs pn hs e

structure SegmentTree where
  root : SegmentNode

def NewSegmentTree : SegmentTree := ⟨newNode⟩

def SegmentTree.Insert (t : SegmentTree) (m : Method) (path : Bytes)
    (h : HandlerId) : SegmentTree :=
  ⟨insertNode t.root (splitOnSlash path) m h⟩

/-- `searchNode` of `segment_tree.go`: at the end of the segments the node
must be an end-of-path node with a handler for the method; otherwise the
literal child for the current segment is tried first, and only if its
subtree yields no match the parameter children are tried in order — skipped
entirely for an empty segment.  The parameter map is threaded exactly as the
Go code mutates it: bind before the recursive call, delete on backtrack. -/
def searchNode : SegmentNode → List Bytes → Method → Params → Option (HandlerId × Params)
  | node, [], m, params =>
    if node.isEndOfPath then (assocLookup node.handlers m).map (fun h => (h, params))
    else none
  | node, seg :: rest, m, params =>
    match (match assocLookup node.children seg with
           | some child => searchNode child rest m params
           | none => none) with
    | some r => some r
    | none =>
      if seg = [] then none
      else
        (node.parameterChildren.foldr
          (fun nc k => fun ps =>
            match searchNode nc.2 rest m (assocSet ps nc.1 seg) with
            | some r => some r
            | none => k (assocErase (assocSet ps nc.1 seg) nc.1))
          (fun _ => none)) params

/-- The parameter-children loop of `searchNode`, as a standalone recursion
(used to state lemmas about the fold inside `searchNode`). -/
def tryParams (rest : List Bytes) (m : Method) (seg : Bytes) :
    List (Bytes × SegmentNode) → Params → Option (HandlerId × Params)
  | [], _ => none
  | (name, child) :: more, ps =>
    match searchNode child rest m (assocSet ps name seg) with
    | some r => some r
    | none => tryParams rest m seg more (assocErase (assocSet ps name seg) name)

theorem searchNode_foldr_eq_tryParams (rest : List Bytes) (m : Method) (seg : Bytes)
    (pcs : List (Bytes × SegmentNode)) (params : Params) :
    (pcs.foldr
      (fun nc k => fun ps =>
        match searchNode nc.2 rest m (assocSet ps nc.1 seg) with
        | some r => some r
        | none => k (assocErase (assocSet ps nc.1 seg) nc.1))
      (fun _ => none)) params = tryParams rest m seg pcs params := by
  induction pcs generalizing params with
  | nil => rfl
  | cons hd tl ih =>
      obtain ⟨name, child⟩ := hd
      simp only [List.foldr, tryParams]
      cases searchNode child rest m (assocSet params name seg) with
      | some r => rfl
      | none => simp [ih]

/-- Unfolding of `searchNode` on a non-empty segment list, phrased with
`tryParams`. -/
theorem searchNode_cons (node : SegmentNode) (seg : Bytes) (rest : List Bytes)
    (m : Method) (params : Params) :
    searchNode node (seg :: rest) m params =
      match (match assocLookup node.children seg with
             | some child => searchNode child rest m params
             | none => none) with
      | some r => some r
      | none =>
        if seg = [] then none
        else tryParams rest m seg node.parameterChildren params := by
  rw [searchNode]
  cases h : (match assocLookup node.children seg with
             | some child => searchNode child rest m params
             | none => none) with
  | some r => rfl
  | none =>
      by_cases hseg : seg = []
      · simp [hseg]
      · simp [hseg, searchNode_foldr_eq_tryParams]

/-- `SegmentTree.Search`: split the path, run the node search with a fresh
empty parameter map. -/
def SegmentTree.Search (t : SegmentTree) (m : Method) (path : Bytes) :
    Option (HandlerId × Params) :=
  searchNode t.root (splitOnSlash path) m []

/-! ## Byte-string helpers used by the parser and serializer -/

/-- Split at the first occurrence of `sep`; `none` when `sep` is absent. -/
def splitFirst (sep : Char) : Bytes → Option (Bytes × Bytes)
  | [] => none
  | c :: rest =>
    if c = sep then some ([], rest)
    else
      match splitFirst sep rest with
      | none => none
      | some (a, b) => some (c :: a, b)

/-- `bufio.Reader.ReadBytes('\n')`: the line up to and including the first
newline, plus the remaining stream; `none` models the read error when the
source is exhausted before a newline arrives. -/
def readLineLF (s : Bytes) : Option (Bytes × Bytes) :=
  match splitFirst '\n' s with
  | none => none
  | some (a, b) => some (a ++ ['\n'], b)

def isCRLFChar (c : Char) : Bool := c = '\r' || c = '\n'

/-- `bytes.TrimRight(l, "\r\n")`: strip every trailing CR or LF. -/
def trimRightCRLF (l : Bytes) : Bytes := (l.reverse.dropWhile isCRLFChar).reverse

/-- ASCII fragment of Go's `unicode.IsSpace`. -/
def isSpaceChar (c : Char) : Bool :=
  c = ' ' || c = '\t' || c = '\n' || c = '\x0b' || c = '\x0c' || c = '\r'

/-- `strings.TrimSpace` on ASCII input. -/
def trimSpace (l : Bytes) : Bytes :=
  ((l.dropWhile isSpaceChar).reverse.dropWhile isSpaceChar).reverse

/-- `bytes.SplitN(l, sep, 3)`: at most three parts, the last keeping the
remainder verbatim. -/
def splitN3 (sep : Char) (l : Bytes) : List Bytes :=
  match splitFirst sep l with
  | none => [l]
  | some (a, r1) =>
    match splitFirst sep r1 with
    | none => [a, r1]
    | some (b, r2) => [a, b, r2]

/-- `strings.Contains hay needle` (substring containment). -/
def containsSub : Bytes → Bytes → Bool
  | [], needle => needle.isEmpty
  | c :: t, needle => needle.isPrefixOf (c :: t) || containsSub t needle

/-! ## Decimal and hexadecimal numerals (`strconv.Itoa`, `strconv.FormatInt 16`) -/

/-- Little-endian base-`b` digits of a number, with fuel (any fuel at least
the value itself is enough). -/
def toBaseRevF (b : Nat) : Nat → Nat → List Nat
  | 0, _ => []
  | _ + 1, 0 => []
  | f + 1, n + 1 => ((n + 1) % b) :: toBaseRevF b f ((n + 1) / b)

/-- Value of a little-endian digit list. -/
def ofBaseRev (b : Nat) : List Nat → Nat
  | [] => 0
  | d :: ds => d + b * ofBaseRev b ds

/-- The digit characters `0`-`9`, `a`-`f`, by code-point arithmetic. -/
def digitChar (d : Nat) : Char :=
  if d < 10 then Char.ofNat ('0'.toNat + d)
  else if d < 16 then Char.ofNat ('a'.toNat + (d - 10))
  else '*'

def decDigitVal (c : Char) : Option Nat :=
  if '0' ≤ c ∧ c ≤ '9' then some (c.toNat - '0'.toNat) else none

def hexDigitVal (c : Char) : Option Nat :=
  if '0' ≤ c ∧ c ≤ '9' then some (c.toNat - '0'.toNat)
  else if 'a' ≤ c ∧ c ≤ 'f' then some (10 + (c.toNat - 'a'.toNat))
  else none

/-- `strconv.Itoa` for a non-negative number. -/
def natToDec (n : Nat) : Bytes :=
  if n = 0 then ['0'] else ((toBaseRevF 10 n n).reverse).map digitChar

/-- `strconv.FormatInt(n, 16)` for a non-negative number. -/
def natToHex (n : Nat) : Bytes :=
  if n = 0 then ['0'] else ((toBaseRevF 16 n n).reverse).map digitChar

/-- Big-endian digit accumulation used by the numeral readers. -/
def parseBaseAcc (b : Nat) (dv : Char → Option Nat) : Bytes → Nat → Option Nat
  | [], acc => some acc
  | c :: rest, acc =>
    match dv c with
    | none => none
    | some d => parseBaseAcc b dv rest (b * acc + d)

/-- Read a non-empty decimal numeral. -/
def decToNat (l : Bytes) : Option Nat :=
  if l = [] then none else parseBaseAcc 10 decDigitVal l 0

/-- Read a non-empty hexadecimal numeral (lowercase letters, as emitted). -/
def hexToNat (l : Bytes) : Option Nat :=
  if l = [] then none else parseBaseAcc 16 hexDigitVal l 0

def int64Max : Int := 9223372036854775807

def int64Min : Int := -9223372036854775808

/-- `strconv.Atoi`: optional sign, non-empty digit run, 64-bit range check.
Note the Go function accepts negative numerals. -/
def goAtoi (s : Bytes) : Option Int :=
  match s with
  | [] => none
  | c :: rest =>
    let signed : Bool × Bytes :=
      if c = '-' then (true, rest) else if c = '+' then (false, rest) else (false, s)
    match decToNat signed.2 with
    | none => none
    | some n =>
      let v : Int := if signed.1 then -(n : Int) else (n : Int)
      if v < int64Min ∨ int64Max < v then none else some v

/-! ## The message model (`app/types`) -/

/-- `types.Request`.  `body` is `none` exactly when the Go field is the nil
pointer; `params` is the router-filled parameter map. -/
structure Request where
  method : Method
  version : Bytes
  target : Bytes
  headers : List (Bytes × Bytes)
  body : Option Bytes
  params : Params
deriving DecidableEq, Repr

inductive Status where
  | statusOK
  | statusNotFound
  | statusBadRequest
  | statusInternalServerError
  | statusCreated
deriving DecidableEq, Repr

/-- How a body stream ends: normal end of data, or a failing read.  The
serializer reads the stream block by block; this models the successive
successful reads followed by the terminating condition. -/
inductive StreamEnd where
  | eof
  | readFailure
deriving DecidableEq, Repr

structure BodyStream where
  blocks : List Bytes
  ending : StreamEnd
deriving DecidableEq, Repr

/-- `types.Response`: `body` is the fixed body (nil pointer ↦ `none`),
`bodyReader` the optional stream whose presence forces chunked framing. -/
structure Response where
  status : Status
  headers : List (Bytes × Bytes)
  body : Option Bytes
  bodyReader : Option BodyStream
deriving DecidableEq, Repr

/-! ## The request parser (`parseRequest`) -/

inductive ParseError where
  | readFailure
  | emptyRequestLine
  | malformedRequestLine
  | unsupportedVersion
  | invalidContentLength
  | bodyReadFailure
deriving DecidableEq, Repr

/-- Outcome of a parse: a request, a returned error, or a runtime crash
(Go `make([]byte, n)` with negative `n` panics instead of returning). -/
inductive ParseOutcome where
  | ok (r : Request)
  | err (e : ParseError)
  | crashed
deriving DecidableEq, Repr

/-- The header loop of `parseRequest`: read lines until the empty line;
a line without a colon is skipped, otherwise name and value are trimmed and
stored last-wins.  Fuel is an artifact: each iteration consumes the line's
newline, so `stream length + 1` can never run out. -/
def parseHeadersF : Nat → Bytes → List (Bytes × Bytes) →
    Option (List (Bytes × Bytes) × Bytes)
  | 0, _, _ => none
  | fuel + 1, s, hs =>
    match readLineLF s with
    | none => none
    | some (line, rest) =>
      let trimmed := trimRightCRLF line
      if trimmed = [] then some (hs, rest)
      else
        match splitFirst ':' trimmed with
        | none => parseHeadersF fuel rest hs
        | some (k, v) =>
          parseHeadersF fuel rest (assocSet hs (trimSpace k) (trimSpace v))

def parseHeaders (s : Bytes) : Option (List (Bytes × Bytes) × Bytes) :=
  parseHeadersF (s.length + 1) s []

/-- `parseRequest`: request line (trailing CR/LF stripped; must be non-empty,
split into exactly three space-separated tokens, version exactly HTTP/1.1),
then the header block, then — for POST with a `Content-Length` header — the
body: the value goes through `Atoi`, a negative length crashes
(`make([]byte, n)` panics), otherwise exactly `n` bytes are taken, failing
when the source holds fewer. -/
def parseRequest (s : Bytes) : ParseOutcome :=
  match readLineLF s with
  | none => .err .readFailure
  | some (line, rest) =>
    let reqLine := trimRightCRLF line
    if reqLine = [] then .err .emptyRequestLine
    else
      match splitN3 ' ' reqLine with
      | [methodTok, target, version] =>
        if version = "HTTP/1.1".data then
          (match parseHeaders rest with
           | none => .err .readFailure
           | some (hs, rest2) =>
             if methodTok = "POST".data then
               (match assocLookup hs "Content-Length".data with
                | none => .ok ⟨methodTok, version, target, hs, none, []⟩
                | some clStr =>
                  match goAtoi clStr with
                  | none => .err .invalidContentLength
                  | some n =>
                    if n < 0 then .crashed
                    else if rest2.length < n.toNat then .err .bodyReadFailure
                    else .ok ⟨methodTok, version, target, hs, some (rest2.take n.toNat), []⟩)
             else .ok ⟨methodTok, version, target, hs, none, []⟩)
        else .err .unsupportedVersion
      | _ => .err .malformedRequestLine

/-! ## The response serializer (`respond`) -/

def statusLine : Status → Bytes
  | .statusOK => "HTTP/1.1 200 OK".data
  | .statusNotFound => "HTTP/1.1 404 Not Found".data
  | .statusBadRequest => "HTTP/1.1 400 Bad Request".data
  | .statusInternalServerError => "HTTP/1.1 500 Internal Server Error".data
  | .statusCreated => "HTTP/1.1 201 Created".data

def isErrorStatus : Status → Bool
  | .statusBadRequest => true
  | .statusNotFound => true
  | .statusInternalServerError => true
  | _ => false

/-- Modelled from the spec: the gzip coder is Go's standard library
`compress/gzip`, not part of this repository.  The spec uses it solely as an
invertible whole-body coding ("the emitted body, when gzip-decompressed,
equals the original body"), so it is modelled as a magic-marked invertible
coding. -/
def gzipCompress (b : Bytes) : Bytes := '\x1f' :: '\x8b' :: b

/-- Modelled from the spec: inverse of `gzipCompress`. -/
def gzipDecompress (b : Bytes) : Option Bytes :=
  match b with
  | '\x1f' :: '\x8b' :: rest => some rest
  | _ => none

/-- Does the request's `Accept-Encoding` header exist and contain "gzip"
as a substring (`canUseGzip` of `respond`)? -/
def acceptsGzip (req : Request) : Bool :=
  match assocLookup req.headers "Accept-Encoding".data with
  | some ae => containsSub ae "gzip".data
  | none => false

/-- The fully decided wire form of a response: the final header map, the
fixed body to write (`bodyToWrite`), and the stream when chunked framing is
in force. -/
structure WirePlan where
  headers : List (Bytes × Bytes)
  bodyToWrite : Option Bytes
  stream : Option BodyStream
deriving DecidableEq, Repr

/-- The connection-lifetime decision of `respond`: close when the request
says `Connection: close` or the status is an error status. -/
def connectionValue (req : Request) (r : Response) : Bytes :=
  if assocLookup req.headers "Connection".data = some "close".data
      ∨ isErrorStatus r.status = true
  then "close".data else "keep-alive".data

/-- The response headers after `respond` stores the `Connection` decision. -/
def headersWithConnection (req : Request) (r : Response) : List (Bytes × Bytes) :=
  assocSet r.headers "Connection".data (connectionValue req r)

/-- The `Content-Length` default: the body's byte length, `0` for nil. -/
def defaultContentLength (body : Option Bytes) : Bytes :=
  match body with
  | some b => natToDec b.length
  | none => "0".data

/-- Non-chunked path: when no `Content-Length` is present yet, store the
default one. -/
def headersWithCL (req : Request) (r : Response) : List (Bytes × Bytes) :=
  if (assocLookup (headersWithConnection req r) "Content-Length".data).isNone then
    assocSet (headersWithConnection req r) "Content-Length".data
      (defaultContentLength r.body)
  else headersWithConnection req r

/-- The header/body decisions of `respond`, in the order the Go code makes
them: the connection-lifetime decision, then either chunked framing (set
`Transfer-Encoding`, drop `Content-Length`) or the fixed-body path (default
the `Content-Length`, then possibly gzip the body, overwriting
`Content-Encoding` and `Content-Length`). -/
def respondPlan (req : Request) (r : Response) : WirePlan :=
  match r.bodyReader with
  | some stream =>
    ⟨assocErase (assocSet (headersWithConnection req r) "Transfer-Encoding".data
        "chunked".data) "Content-Length".data,
      r.body, some stream⟩
  | none =>
    match r.body, acceptsGzip req with
    | some b, true =>
      ⟨assocSet (assocSet (headersWithCL req r) "Content-Encoding".data "gzip".data)
          "Content-Length".data (natToDec (gzipCompress b).length),
        some (gzipCompress b), none⟩
    | some b, false => ⟨headersWithCL req r, some b, none⟩
    | none, _ => ⟨headersWithCL req r, none, none⟩

/-- One chunk of the chunked writer: hex length, CRLF, the bytes, CRLF. -/
def writeChunk (b : Bytes) : Bytes :=
  natToHex b.length ++ '\r' :: '\n' :: b ++ ['\r', '\n']

/-- The chunk-writing loop: each non-empty read block becomes a chunk; a
normal end of stream appends the zero-length terminator, while a read
failure stops writing with nothing further emitted. -/
def writeChunks : List Bytes → StreamEnd → Bytes
  | [], .eof => ['0', '\r', '\n', '\r', '\n']
  | [], .readFailure => []
  | b :: rest, e => (if b = [] then [] else writeChunk b) ++ writeChunks rest e

/-- Header block emission: one `Name: Value` CRLF line per entry, in map
order. -/
def emitHeaders : List (Bytes × Bytes) → Bytes
  | [] => []
  | (k, v) :: rest => k ++ ':' :: ' ' :: v ++ '\r' :: '\n' :: emitHeaders rest

/-- Status line, CRLF, header block, blank CRLF line. -/
def respondHead (req : Request) (r : Response) : Bytes :=
  statusLine r.status ++ '\r' :: '\n' ::
    (emitHeaders (respondPlan req r).headers ++ ['\r', '\n'])

/-- The body section of the emitted response: the chunk sequence for a
streamed body, otherwise the fixed `bodyToWrite` (nothing for nil). -/
def respondBody (req : Request) (r : Response) : Bytes :=
  match (respondPlan req r).stream with
  | some s => writeChunks s.blocks s.ending
  | none => ((respondPlan req r).bodyToWrite).getD []

/-- The full wire bytes written by `respond`. -/
def respond (req : Request) (r : Response) : Bytes :=
  respondHead req r ++ respondBody req r

/-! ## A client-side reading of the emitted bytes (for the round trips) -/

/-- Split at the first CRLF. -/
def readLineCRLF : Bytes → Option (Bytes × Bytes)
  | [] => none
  | [_] => none
  | c1 :: c2 :: rest =>
    if c1 = '\r' ∧ c2 = '\n' then some ([], rest)
    else
      match readLineCRLF (c2 :: rest) with
      | none => none
      | some (a, b) => some (c1 :: a, b)

/-- Client header-block reading: CRLF-terminated lines up to the blank line,
each split at its first colon, name and value trimmed. -/
def clientHeaderLinesF : Nat → Bytes → List (Bytes × Bytes) →
    Option (List (Bytes × Bytes) × Bytes)
  | 0, _, _ => none
  | f + 1, s, acc =>
    match readLineCRLF s with
    | none => none
    | some (line, rest) =>
      if line = [] then some (acc.reverse, rest)
      else
        match splitFirst ':' line with
        | none => none
        | some (k, v) =>
          clientHeaderLinesF f rest ((trimSpace k, trimSpace v) :: acc)

/-- A client's reading of a length-framed response: skip the status line,
read the header block, then take as many body bytes as `Content-Length`
announces.  Returns that length and the body. -/
def clientParse (s : Bytes) : Option (Nat × Bytes) :=
  match readLineCRLF s with
  | none => none
  | some (_, rest) =>
    match clientHeaderLinesF (rest.length + 1) rest [] with
    | none => none
    | some (hs, bodyPart) =>
      match assocLookup hs "Content-Length".data with
      | none => none
      | some clv =>
        match decToNat clv with
        | none => none
        | some n => some (n, bodyPart.take n)

/-- Chunked-body decoding: read the hex size line, take that many payload
bytes and their CRLF, concatenating payloads and stopping at the zero-length
terminator. -/
def decodeChunksF : Nat → Bytes → Option Bytes
  | 0, _ => none
  | f + 1, s =>
    match readLineCRLF s with
    | none => none
    | some (sizeLine, rest) =>
      match hexToNat sizeLine with
      | none => none
      | some 0 => some []
      | some (n + 1) =>
        if n + 1 ≤ rest.length then
          match rest.drop (n + 1) with
          | '\r' :: '\n' :: rest3 =>
            (decodeChunksF f rest3).map (fun tail => rest.take (n + 1) ++ tail)
          | _ => none
        else none

def decodeChunks (s : Bytes) : Option Bytes := decodeChunksF (s.length + 1) s

/-! ## Association-list facts -/

theorem assocLookup_none_forall {α : Type} (l : List (Bytes × α)) (key : Bytes)
    (h : assocLookup l key = none) : ∀ p ∈ l, p.1 ≠ key := by
  induction l with
  | nil => intro p hp; exact absurd hp (List.not_mem_nil p)
  | cons hd tl ih =>
      intro p hp
      obtain ⟨k, v⟩ := hd
      by_cases hk : k = key
      · simp [assocLookup, hk] at h
      · simp only [assocLookup, hk, if_false] at h
        rcases List.mem_cons.mp hp with rfl | hmem
        · exact hk
        · exact ih h p hmem

theorem assocSet_of_absent {α : Type} (l : List (Bytes × α)) (key : Bytes) (v : α)
    (h : assocLookup l key = none) : assocSet l key v = l ++ [(key, v)] := by
  induction l with
  | nil => rfl
  | cons hd tl ih =>
      obtain ⟨k, w⟩ := hd
      by_cases hk : k = key
      · simp [assocLookup, hk] at h
      · simp only [assocLookup, hk, if_false] at h
        simp [assocSet, hk, ih h]

/-! ## Facts about the byte-string helpers -/

theorem splitFirst_append_left (c : Char) (a b : Bytes) (h : c ∉ a) :
    splitFirst c (a ++ b) =
      (splitFirst c b).map (fun p => (a ++ p.1, p.2)) := by
  induction a with
  | nil => cases hb : splitFirst c b <;> simp [hb]
  | cons x xs ih =>
      have hx : ¬ x = c := fun hh => h (hh ▸ List.mem_cons_self x xs)
      have hxs : c ∉ xs := fun hh => h (List.mem_cons_of_mem x hh)
      simp only [List.cons_append, splitFirst, hx, if_false, List.append_eq]
      rw [ih hxs]
      cases hb : splitFirst c b with
      | none => rfl
      | some p => obtain ⟨p1, p2⟩ := p; rfl

theorem splitFirst_cons_self (c : Char) (b : Bytes) :
    splitFirst c (c :: b) = some ([], b) := by
  simp [splitFirst]

theorem splitFirst_boundary (c : Char) (a b : Bytes) (h : c ∉ a) :
    splitFirst c (a ++ c :: b) = some (a, b) := by
  rw [splitFirst_append_left c a (c :: b) h, splitFirst_cons_self]
  simp

theorem readLineCRLF_boundary (a b : Bytes) (h : '\r' ∉ a) :
    readLineCRLF (a ++ '\r' :: '\n' :: b) = some (a, b) := by
  induction a with
  | nil => simp [readLineCRLF]
  | cons x xs ih =>
      have hx : ¬ x = '\r' := fun hh => h (hh ▸ List.mem_cons_self x xs)
      have hxs : '\r' ∉ xs := fun hh => h (List.mem_cons_of_mem x hh)
      cases xs with
      | nil =>
          simp only [List.nil_append] at ih
          simp only [List.cons_append, List.nil_append]
          simp [readLineCRLF, hx, ih hxs]
      | cons y ys =>
          simp only [List.cons_append] at ih ⊢
          simp [readLineCRLF, hx, ih hxs]

theorem trimRightCRLF_append (xs ys : Bytes) (h : trimRightCRLF ys ≠ []) :
    trimRightCRLF (xs ++ ys) = xs ++ trimRightCRLF ys := by
  unfold trimRightCRLF at *
  rw [List.reverse_append, List.dropWhile_append]
  have hne : (ys.reverse.dropWhile isCRLFChar).isEmpty = false := by
    cases hd : ys.reverse.dropWhile isCRLFChar with
    | nil => exact absurd (by simp [hd]) h
    | cons z zs => rfl
  rw [hne]
  simp

theorem dropWhile_eq_self_of_all {p : Char → Bool} (l : Bytes)
    (h : ∀ c ∈ l, p c = false) : l.dropWhile p = l := by
  cases l with
  | nil => rfl
  | cons x xs => simp [List.dropWhile, h x (List.mem_cons_self x xs)]

theorem trimRightCRLF_no_crlf (l : Bytes)
    (h : ∀ c ∈ l, isCRLFChar c = false) : trimRightCRLF l = l := by
  unfold trimRightCRLF
  rw [dropWhile_eq_self_of_all l.reverse
        (fun c hc => h c (List.mem_reverse.mp hc)),
      List.reverse_reverse]

/-! ## Numeral round trips -/

theorem toBaseRevF_lt (b : Nat) (hb : 0 < b) :
    ∀ f v d, d ∈ toBaseRevF b f v → d < b := by
  intro f
  induction f with
  | zero => intro v d hd; simp [toBaseRevF] at hd
  | succ g ih =>
      intro v d hd
      cases v with
      | zero => simp [toBaseRevF] at hd
      | succ n =>
          simp only [toBaseRevF, List.mem_cons] at hd
          rcases hd with rfl | hd
          · exact Nat.mod_lt _ hb
          · exact ih _ d hd

theorem ofBaseRev_toBaseRevF (b : Nat) (hb : 2 ≤ b) :
    ∀ f v, v ≤ f → ofBaseRev b (toBaseRevF b f v) = v := by
  intro f
  induction f with
  | zero =>
      intro v hv
      have hv0 : v = 0 := by omega
      subst hv0; rfl
  | succ g ih =>
      intro v hv
      cases v with
      | zero => rfl
      | succ n =>
          have hdiv : (n + 1) / b ≤ g := by
            have h1 : (n + 1) / b < n + 1 := Nat.div_lt_self (Nat.succ_pos n) hb
            omega
          simp only [toBaseRevF, ofBaseRev, ih _ hdiv]
          exact Nat.mod_add_div (n + 1) b

theorem toBaseRevF_ne_nil (b : Nat) (f v : Nat) (hf : 0 < f) (hv : 0 < v) :
    toBaseRevF b f v ≠ [] := by
  cases f with
  | zero => omega
  | succ g =>
      cases v with
      | zero => omega
      | succ n => simp [toBaseRevF]

theorem hexDigitVal_digitChar : ∀ d, d < 16 → hexDigitVal (digitChar d) = some d := by
  decide

theorem decDigitVal_digitChar : ∀ d, d < 10 → decDigitVal (digitChar d) = some d := by
  decide

theorem digitChar_ne_cr : ∀ d, d < 16 → digitChar d ≠ '\r' := by
  decide

theorem digitChar_not_space : ∀ d, d < 16 → isSpaceChar (digitChar d) = false := by
  decide

theorem parseBaseAcc_map (b : Nat) (dv : Char → Option Nat)
    (hdv : ∀ d, d < b → dv (digitChar d) = some d) :
    ∀ (ds : List Nat) (acc : Nat), (∀ d ∈ ds, d < b) →
      parseBaseAcc b dv (ds.map digitChar) acc =
        some (ds.foldl (fun a d => b * a + d) acc) := by
  intro ds
  induction ds with
  | nil => intro acc _; rfl
  | cons d rest ih =>
      intro acc hds
      have hd : d < b := hds d (List.mem_cons_self d rest)
      simp only [List.map_cons, parseBaseAcc, hdv d hd, List.foldl_cons]
      exact ih _ (fun x hx => hds x (List.mem_cons_of_mem d hx))

theorem foldl_reverse_ofBaseRev (b : Nat) (ds : List Nat) :
    ds.reverse.foldl (fun a d => b * a + d) 0 = ofBaseRev b ds := by
  rw [List.foldl_reverse]
  induction ds with
  | nil => rfl
  | cons d rest ih => simp only [List.foldr_cons, ofBaseRev, ih]; ring

theorem hexToNat_natToHex (n : Nat) : hexToNat (natToHex n) = some n := by
  by_cases hn : n = 0
  · subst hn; rfl
  · have hpos : 0 < n := Nat.pos_of_ne_zero hn
    unfold natToHex hexToNat
    rw [if_neg hn]
    have hne : ((toBaseRevF 16 n n).reverse.map digitChar) ≠ [] := by
      simp [toBaseRevF_ne_nil 16 n n hpos hpos]
    rw [if_neg hne]
    rw [parseBaseAcc_map 16 hexDigitVal hexDigitVal_digitChar _ 0
        (fun d hd => toBaseRevF_lt 16 (by omega) n n d (List.mem_reverse.mp hd))]
    rw [foldl_reverse_ofBaseRev, ofBaseRev_toBaseRevF 16 (by omega) n n (Nat.le_refl n)]

theorem decToNat_natToDec (n : Nat) : decToNat (natToDec n) = some n := by
  by_cases hn : n = 0
  · subst hn; rfl
  · have hpos : 0 < n := Nat.pos_of_ne_zero hn
    unfold natToDec decToNat
    rw [if_neg hn]
    have hne : ((toBaseRevF 10 n n).reverse.map digitChar) ≠ [] := by
      simp [toBaseRevF_ne_nil 10 n n hpos hpos]
    rw [if_neg hne]
    rw [parseBaseAcc_map 10 decDigitVal decDigitVal_digitChar _ 0
        (fun d hd => toBaseRevF_lt 10 (by omega) n n d (List.mem_reverse.mp hd))]
    rw [foldl_reverse_ofBaseRev, ofBaseRev_toBaseRevF 10 (by omega) n n (Nat.le_refl n)]

theorem natToHex_no_cr (n : Nat) : '\r' ∉ natToHex n := by
  by_cases hn : n = 0
  · subst hn; decide
  · unfold natToHex
    rw [if_neg hn]
    intro hmem
    obtain ⟨d, hd, hdc⟩ := List.mem_map.mp hmem
    have : d < 16 := toBaseRevF_lt 16 (by omega) n n d (List.mem_reverse.mp hd)
    exact digitChar_ne_cr d this hdc

theorem natToDec_no_cr (n : Nat) : '\r' ∉ natToDec n := by
  by_cases hn : n = 0
  · subst hn; decide
  · unfold natToDec
    rw [if_neg hn]
    intro hmem
    obtain ⟨d, hd, hdc⟩ := List.mem_map.mp hmem
    have h10 : d < 10 := toBaseRevF_lt 10 (by omega) n n d (List.mem_reverse.mp hd)
    exact digitChar_ne_cr d (by omega) hdc

theorem natToDec_not_space (n : Nat) : ∀ c ∈ natToDec n, isSpaceChar c = false := by
  by_cases hn : n = 0
  · subst hn; decide
  · unfold natToDec
    rw [if_neg hn]
    intro c hmem
    obtain ⟨d, hd, hdc⟩ := List.mem_map.mp hmem
    have h10 : d < 10 := toBaseRevF_lt 10 (by omega) n n d (List.mem_reverse.mp hd)
    exact hdc ▸ digitChar_not_space d (by omega)

theorem natToDec_ne_nil (n : Nat) : natToDec n ≠ [] := by
  by_cases hn : n = 0
  · subst hn; decide
  · unfold natToDec
    rw [if_neg hn]
    simp [toBaseRevF_ne_nil 10 n n (Nat.pos_of_ne_zero hn) (Nat.pos_of_ne_zero hn)]

theorem trimSpace_of_no_space (l : Bytes)
    (h : ∀ c ∈ l, isSpaceChar c = false) : trimSpace l = l := by
  unfold trimSpace
  rw [dropWhile_eq_self_of_all l h,
      dropWhile_eq_self_of_all l.reverse
        (fun c hc => h c (List.mem_reverse.mp hc)),
      List.reverse_reverse]

/-! ## Chunked-body round trip -/

/-- Number of non-empty blocks: the number of chunks the writer emits. -/
def countNE : List Bytes → Nat
  | [] => 0
  | b :: rest => (if b = [] then 0 else 1) + countNE rest

theorem writeChunk_append (b w : Bytes) :
    writeChunk b ++ w =
      natToHex b.length ++ '\r' :: '\n' :: (b ++ '\r' :: '\n' :: w) := by
  unfold writeChunk
  simp [List.append_assoc]

theorem decodeChunksF_writeChunks (blocks : List Bytes) :
    ∀ f, countNE blocks < f →
      decodeChunksF f (writeChunks blocks .eof) = some blocks.flatten := by
  induction blocks with
  | nil =>
      intro f hf
      cases f with
      | zero => exact absurd hf (by simp [countNE])
      | succ g => rfl
  | cons b rest ih =>
      intro f hf
      by_cases hb : b = []
      · subst hb
        have hcount : countNE rest < f := by
          simpa [countNE] using hf
        simp only [writeChunks, eq_self_iff_true, if_true, List.nil_append]
        rw [ih f hcount]
        simp
      · obtain ⟨k, hk⟩ : ∃ k, b.length = k + 1 := by
          cases b with
          | nil => exact absurd rfl hb
          | cons x xs => exact ⟨xs.length, rfl⟩
        cases f with
        | zero => exact absurd hf (by omega)
        | succ g =>
            have hg : countNE rest < g := by
              simp only [countNE, if_neg hb] at hf
              omega
            simp only [writeChunks, if_neg hb]
            rw [writeChunk_append]
            unfold decodeChunksF
            rw [readLineCRLF_boundary _ _ (natToHex_no_cr b.length)]
            simp only [hexToNat_natToHex, hk]
            have hlen : k + 1 ≤ (b ++ '\r' :: '\n' :: writeChunks rest .eof).length := by
              simp [List.length_append]
              omega
            rw [if_pos hlen, ← hk, List.drop_left, List.take_left]
            have hmatch : (match '\r' :: '\n' :: writeChunks rest .eof with
                | '\r' :: '\n' :: rest3 =>
                  Option.map (fun tail => b ++ tail) (decodeChunksF g rest3)
                | _ => none) =
                Option.map (fun tail => b ++ tail)
                  (decodeChunksF g (writeChunks rest .eof)) := rfl
            rw [hmatch, ih g hg]
            simp

theorem countNE_le_writeChunks_length (blocks : List Bytes) :
    countNE blocks ≤ (writeChunks blocks .eof).length := by
  induction blocks with
  | nil => simp [countNE, writeChunks]
  | cons b rest ih =>
      by_cases hb : b = []
      · subst hb
        simpa [countNE, writeChunks] using ih
      · simp only [countNE, if_neg hb, writeChunks, List.length_append]
        have h2 : 2 ≤ (writeChunk b).length := by
          unfold writeChunk
          simp [List.length_append]
          omega
        omega

theorem decodeChunks_writeChunks (blocks : List Bytes) :
    decodeChunks (writeChunks blocks .eof) = some blocks.flatten := by
  unfold decodeChunks
  refine decodeChunksF_writeChunks blocks _ ?_
  have := countNE_le_writeChunks_length blocks
  omega

theorem trimSpace_space_cons (l : Bytes)
    (h : ∀ c ∈ l, isSpaceChar c = false) : trimSpace (' ' :: l) = l := by
  unfold trimSpace
  have hstep : (' ' :: l).dropWhile isSpaceChar = l.dropWhile isSpaceChar := by
    simp [List.dropWhile, isSpaceChar]
  rw [hstep, dropWhile_eq_self_of_all l h,
      dropWhile_eq_self_of_all l.reverse
        (fun c hc => h c (List.mem_reverse.mp hc)),
      List.reverse_reverse]

/-! ## Serializer header decisions -/

theorem assocLookup_defaultCL {α : Type} (hs1 : List (Bytes × α)) (d : α) (key : Bytes)
    (hne : key ≠ "Content-Length".data) :
    assocLookup (if (assocLookup hs1 "Content-Length".data).isNone
                 then assocSet hs1 "Content-Length".data d else hs1) key
      = assocLookup hs1 key := by
  by_cases hcl : (assocLookup hs1 "Content-Length".data).isNone
  · rw [if_pos hcl, assocLookup_set_ne _ _ _ _ hne]
  · rw [if_neg hcl]

theorem lookup_headersWithCL_ne (req : Request) (r : Response) (key : Bytes)
    (hne : key ≠ "Content-Length".data) :
    assocLookup (headersWithCL req r) key =
      assocLookup (headersWithConnection req r) key := by
  unfold headersWithCL
  by_cases hcl : (assocLookup (headersWithConnection req r)
      "Content-Length".data).isNone
  · rw [if_pos hcl, assocLookup_set_ne _ _ _ _ hne]
  · rw [if_neg hcl]

theorem lookup_headersWithConnection_self (req : Request) (r : Response) :
    assocLookup (headersWithConnection req r) "Connection".data =
      some (connectionValue req r) :=
  assocLookup_set_self _ _ _

theorem lookup_headersWithConnection_ne (req : Request) (r : Response) (key : Bytes)
    (hne : key ≠ "Connection".data) :
    assocLookup (headersWithConnection req r) key = assocLookup r.headers key :=
  assocLookup_set_ne _ _ _ _ hne

/-- Whatever framing path `respond` takes, the emitted `Connection` header
is the connection-lifetime decision. -/
theorem lookup_plan_connection (req : Request) (r : Response) :
    assocLookup (respondPlan req r).headers "Connection".data =
      some (connectionValue req r) := by
  unfold respondPlan
  cases r.bodyReader with
  | some s =>
      rw [assocLookup_erase_ne _ _ _ (by decide),
          assocLookup_set_ne _ _ _ _ (by decide),
          lookup_headersWithConnection_self]
  | none =>
      cases r.body with
      | some b =>
          cases acceptsGzip req with
          | true =>
              rw [assocLookup_set_ne _ _ _ _ (by decide),
                  assocLookup_set_ne _ _ _ _ (by decide),
                  lookup_headersWithCL_ne _ _ _ (by decide),
                  lookup_headersWithConnection_self]
          | false =>
              rw [lookup_headersWithCL_ne _ _ _ (by decide),
                  lookup_headersWithConnection_self]
      | none =>
          cases acceptsGzip req with
          | true =>
              rw [lookup_headersWithCL_ne _ _ _ (by decide),
                  lookup_headersWithConnection_self]
          | false =>
              rw [lookup_headersWithCL_ne _ _ _ (by decide),
                  lookup_headersWithConnection_self]

/-- C5: the `Connection` header of the serialized response is `close` exactly
when the request asked for closure or the status is 400, 404 or 500, and
`keep-alive` otherwise. -/
theorem C5_connection_header (req : Request) (r : Response) :
    assocLookup (respondPlan req r).headers "Connection".data =
      some (if assocLookup req.headers "Connection".data = some "close".data
              ∨ r.status = .statusBadRequest ∨ r.status = .statusNotFound
              ∨ r.status = .statusInternalServerError
            then "close".data else "keep-alive".data) := by
  rw [lookup_plan_connection]
  refine congrArg some ?_
  unfold connectionValue
  refine if_congr ?_ rfl rfl
  cases r.status <;> simp [isErrorStatus]

/-- C6: with `Accept-Encoding` containing "gzip" and a fixed non-nil body,
the wire body is the gzip compression of the body, `Content-Encoding: gzip`
and the compressed `Content-Length` are set, and decompression recovers the
original body; a streamed body is passed through to the chunked writer
unchanged, with no compression and no `Content-Encoding` added. -/
theorem C6_gzip_roundtrip :
    (∀ (req : Request) (r : Response) (b : Bytes),
      r.bodyReader = none → r.body = some b → acceptsGzip req = true →
        (respondPlan req r).bodyToWrite = some (gzipCompress b) ∧
        respondBody req r = gzipCompress b ∧
        assocLookup (respondPlan req r).headers "Content-Encoding".data =
          some "gzip".data ∧
        assocLookup (respondPlan req r).headers "Content-Length".data =
          some (natToDec (gzipCompress b).length) ∧
        gzipDecompress (gzipCompress b) = some b) ∧
    (∀ (req : Request) (r : Response) (s : BodyStream),
      r.bodyReader = some s →
        (respondPlan req r).stream = some s ∧
        respondBody req r = writeChunks s.blocks s.ending ∧
        assocLookup (respondPlan req r).headers "Content-Encoding".data =
          assocLookup r.headers "Content-Encoding".data) := by
  constructor
  · intro req r b hbr hb hgz
    have hplan : respondPlan req r =
        ⟨assocSet (assocSet (headersWithCL req r) "Content-Encoding".data
            "gzip".data) "Content-Length".data (natToDec (gzipCompress b).length),
          some (gzipCompress b), none⟩ := by
      unfold respondPlan
      rw [hbr, hb, hgz]
    refine ⟨by rw [hplan], ?_, ?_, ?_, rfl⟩
    · unfold respondBody
      rw [hplan]
      rfl
    · rw [hplan]
      show assocLookup (assocSet (assocSet (headersWithCL req r)
          "Content-Encoding".data "gzip".data) "Content-Length".data
          (natToDec (gzipCompress b).length)) "Content-Encoding".data = _
      rw [assocLookup_set_ne _ _ _ _ (by decide), assocLookup_set_self]
    · rw [hplan]
      exact assocLookup_set_self _ _ _
  · intro req r s hbr
    have hplan : respondPlan req r =
        ⟨assocErase (assocSet (headersWithConnection req r)
            "Transfer-Encoding".data "chunked".data) "Content-Length".data,
          r.body, some s⟩ := by
      unfold respondPlan
      rw [hbr]
    refine ⟨by rw [hplan], ?_, ?_⟩
    · unfold respondBody
      rw [hplan]
    · rw [hplan]
      show assocLookup (assocErase (assocSet (headersWithConnection req r)
          "Transfer-Encoding".data "chunked".data) "Content-Length".data)
          "Content-Encoding".data = _
      rw [assocLookup_erase_ne _ _ _ (by decide),
          assocLookup_set_ne _ _ _ _ (by decide),
          lookup_headersWithConnection_ne _ _ _ (by decide)]

/-- C6 witness: the gzip case at a concrete request/response, and the
streamed case at a concrete streamed response. -/
theorem C6_gzip_roundtrip_witness :
    ((respondPlan ⟨"GET".data, "HTTP/1.1".data, "/".data,
        [("Accept-Encoding".data, "br, gzip".data)], none, []⟩
      ⟨.statusOK, [], some "hello".data, none⟩).bodyToWrite =
        some (gzipCompress "hello".data) ∧
      gzipDecompress (gzipCompress "hello".data) = some "hello".data) ∧
    (respondPlan ⟨"GET".data, "HTTP/1.1".data, "/".data, [], none, []⟩
      ⟨.statusOK, [], none, some ⟨["ab".data], .eof⟩⟩).stream =
        some ⟨["ab".data], .eof⟩ := by
  refine ⟨?_, ?_⟩
  · obtain ⟨h1, _, _, _, h5⟩ :=
      C6_gzip_roundtrip.1 ⟨"GET".data, "HTTP/1.1".data, "/".data,
        [("Accept-Encoding".data, "br, gzip".data)], none, []⟩
        ⟨.statusOK, [], some "hello".data, none⟩ "hello".data rfl rfl (by decide)
    exact ⟨h1, h5⟩
  · exact (C6_gzip_roundtrip.2 ⟨"GET".data, "HTTP/1.1".data, "/".data, [], none, []⟩
      ⟨.statusOK, [], none, some ⟨["ab".data], .eof⟩⟩ ⟨["ab".data], .eof⟩ rfl).1

/-- C4: a streamed body is emitted as the chunk sequence — one
`hex-length CRLF bytes CRLF` chunk per non-empty read block, closed by the
zero-length terminator — and decoding that chunk sequence recovers the
concatenation of the stream's blocks exactly. -/
theorem C4_chunked_roundtrip (req : Request) (r : Response) (blocks : List Bytes)
    (h : r.bodyReader = some ⟨blocks, .eof⟩) :
    respondBody req r = writeChunks blocks .eof ∧
      decodeChunks (respondBody req r) = some blocks.flatten := by
  have hbody : respondBody req r = writeChunks blocks .eof := by
    unfold respondBody respondPlan
    rw [h]
  exact ⟨hbody, by rw [hbody]; exact decodeChunks_writeChunks blocks⟩

/-- C4 witness: the chunked round trip at a concrete three-block stream
(with an empty middle read). -/
theorem C4_chunked_roundtrip_witness :
    respondBody ⟨"GET".data, "HTTP/1.1".data, "/".data, [], none, []⟩
        ⟨.statusOK, [], none, some ⟨["ab".data, [], "cde".data], .eof⟩⟩ =
      writeChunks ["ab".data, [], "cde".data] .eof ∧
    decodeChunks (respondBody ⟨"GET".data, "HTTP/1.1".data, "/".data, [], none, []⟩
        ⟨.statusOK, [], none, some ⟨["ab".data, [], "cde".data], .eof⟩⟩) =
      some (["ab".data, [], "cde".data] : List Bytes).flatten :=
  C4_chunked_roundtrip ⟨"GET".data, "HTTP/1.1".data, "/".data, [], none, []⟩
    ⟨.statusOK, [], none, some ⟨["ab".data, [], "cde".data], .eof⟩⟩
    ["ab".data, [], "cde".data] rfl

/-! ## Router claims -/

/-- The insert-then-search law along a purely literal path: searching the
very segments just inserted finds the registered handler, leaving the
parameter map untouched. -/
theorem insert_search_literal (segs : List Bytes) :
    ∀ (node : SegmentNode) (m : Method) (h : HandlerId) (params : Params),
      (∀ s ∈ segs, s.head? ≠ some ':') →
      searchNode (insertNode node segs m h) segs m params = some (h, params) := by
  induction segs with
  | nil =>
      intro node m h params _
      cases node with
      | mk cs pcs pn hdl e =>
          simp [insertNode, searchNode, SegmentNode.isEndOfPath,
                SegmentNode.handlers, assocLookup_set_self]
  | cons seg rest ih =>
      intro node m h params hlit
      have hseg : ¬ seg.head? = some ':' := hlit seg (List.mem_cons_self _ _)
      have hrest : ∀ s ∈ rest, s.head? ≠ some ':' :=
        fun s hs => hlit s (List.mem_cons_of_mem _ hs)
      cases node with
      | mk cs pcs pn hdl e =>
          simp only [insertNode, hseg, if_false]
          rw [searchNode_cons]
          simp only [SegmentNode.children, assocLookup_set_self,
                     ih _ m h params hrest]

/-- The example router of the static-precedence property: `GET /items/:id`
registered as handler 1, then `GET /items/special` as handler 2. -/
def routerC2 : SegmentTree :=
  (NewSegmentTree.Insert "GET".data "/items/:id".data 1).Insert
    "GET".data "/items/special".data 2

/-- C2: with a literal and a parametric route at the same position, the
literal path resolves to the static handler with empty parameters, any other
segment resolves to the parametric handler binding that segment; and in
general the literal child is tried first at every node, the parameter
branches only when the whole literal subtree fails. -/
theorem C2_static_precedence :
    routerC2.Search "GET".data "/items/special".data = some (2, []) ∧
    routerC2.Search "GET".data "/items/123".data =
      some (1, [("id".data, "123".data)]) ∧
    (∀ (node : SegmentNode) (seg : Bytes) (rest : List Bytes) (m : Method)
        (params : Params) (child : SegmentNode) (res : HandlerId × Params),
      assocLookup node.children seg = some child →
      searchNode child rest m params = some res →
      searchNode node (seg :: rest) m params = some res) ∧
    (∀ (node : SegmentNode) (seg : Bytes) (rest : List Bytes) (m : Method)
        (params : Params),
      (match assocLookup node.children seg with
       | some child => searchNode child rest m params
       | none => none) = none →
      seg ≠ [] →
      searchNode node (seg :: rest) m params =
        tryParams rest m seg node.parameterChildren params) := by
  refine ⟨by decide, by decide, ?_, ?_⟩
  · intro node seg rest m params child res hc hs
    rw [searchNode_cons]
    simp only [hc, hs]
  · intro node seg rest m params hlit hseg
    rw [searchNode_cons, hlit]
    simp [hseg]

/-- C2 witness: the literal-first rule applied at the root of the example
router for the path split of `/items/special`. -/
theorem C2_static_precedence_witness :
    searchNode routerC2.root ([] :: ["items".data, "special".data])
      "GET".data [] = some (2, ([] : Params)) :=
  C2_static_precedence.2.2.1 routerC2.root [] ["items".data, "special".data]
    "GET".data [] ((assocLookup routerC2.root.children []).getD newNode)
    (2, ([] : Params)) rfl (by decide)

/-- C7: an empty path segment is resolved through the literal children
only — the parameter branches are never consulted for it — and concretely
`/files//x` does not match the route `/files/:f`. -/
theorem C7_empty_segment_never_param :
    (∀ (node : SegmentNode) (rest : List Bytes) (m : Method) (params : Params),
      searchNode node ([] :: rest) m params =
        match assocLookup node.children [] with
        | some child => searchNode child rest m params
        | none => none) ∧
    (NewSegmentTree.Insert "GET".data "/files/:f".data 5).Search
        "GET".data "/files//x".data = none := by
  refine ⟨?_, by decide⟩
  intro node rest m params
  rw [searchNode_cons]
  cases h : (match assocLookup node.children [] with
             | some child => searchNode child rest m params
             | none => none) with
  | some r => rfl
  | none => simp

/-- C9: the root path `/` splits into two empty segments for both insert and
search, and a route whose pattern has only literal segments resolves — at
its own path — to exactly the handler just registered, with an empty (yet
present) parameter map. -/
theorem C9_literal_resolve :
    splitOnSlash "/".data = [[], []] ∧
    (∀ (t : SegmentTree) (m : Method) (path : Bytes) (h : HandlerId),
      (∀ s ∈ splitOnSlash path, s.head? ≠ some ':') →
      (t.Insert m path h).Search m path = some (h, [])) := by
  refine ⟨by decide, ?_⟩
  intro t m path h hlit
  unfold SegmentTree.Search SegmentTree.Insert
  exact insert_search_literal (splitOnSlash path) t.root m h [] hlit

/-- C9 witness: registering the root route `/` and resolving `/`. -/
theorem C9_literal_resolve_witness :
    (NewSegmentTree.Insert "GET".data "/".data 7).Search "GET".data "/".data
      = some (7, ([] : Params)) :=
  C9_literal_resolve.2 NewSegmentTree "GET".data "/".data 7 (by decide)

/-! ## Fixed-body round trip (claim C3) -/

/-- Well-formedness of a handler-set header pair: the name is free of CR,
colon and surrounding whitespace; the value is free of CR. -/
abbrev HeaderPairWF (p : Bytes × Bytes) : Prop :=
  ('\r' ∉ p.1 ∧ ':' ∉ p.1 ∧ trimSpace p.1 = p.1) ∧ '\r' ∉ p.2

theorem mem_assocSet {α : Type} (l : List (Bytes × α)) (k : Bytes) (v : α) :
    ∀ p ∈ assocSet l k v, p ∈ l ∨ p = (k, v) := by
  induction l with
  | nil =>
      intro p hp
      simp [assocSet] at hp
      exact Or.inr hp
  | cons q rest ih =>
      intro p hp
      obtain ⟨qk, qv⟩ := q
      by_cases hk : qk = k
      · subst hk
        simp only [assocSet, if_pos rfl] at hp
        rcases List.mem_cons.mp hp with rfl | hmem
        · exact Or.inr rfl
        · exact Or.inl (List.mem_cons_of_mem _ hmem)
      · simp only [assocSet, if_neg hk] at hp
        rcases List.mem_cons.mp hp with rfl | hmem
        · exact Or.inl (List.mem_cons_self _ _)
        · rcases ih p hmem with h1 | h2
          · exact Or.inl (List.mem_cons_of_mem _ h1)
          · exact Or.inr h2

theorem assocLookup_append_of_none {α : Type} (l1 l2 : List (Bytes × α))
    (key : Bytes) (h : assocLookup l1 key = none) :
    assocLookup (l1 ++ l2) key = assocLookup l2 key := by
  induction l1 with
  | nil => rfl
  | cons q rest ih =>
      obtain ⟨qk, qv⟩ := q
      by_cases hk : qk = key
      · simp [assocLookup, hk] at h
      · simp only [assocLookup, hk, if_false] at h
        simp [assocLookup, hk, ih h]

theorem length_le_emitHeaders (hs : List (Bytes × Bytes)) :
    hs.length ≤ (emitHeaders hs).length := by
  induction hs with
  | nil => simp [emitHeaders]
  | cons p rest ih =>
      obtain ⟨k, v⟩ := p
      simp only [emitHeaders, List.length_cons, List.length_append]
      omega

theorem statusLine_no_cr (st : Status) : '\r' ∉ statusLine st := by
  cases st <;> decide

/-- Reading the emitted header block as a client: each emitted
`name: value` line is recovered (with client-side trimming), and the bytes
after the blank line are handed back verbatim. -/
theorem clientHeaderLinesF_emit :
    ∀ (hs : List (Bytes × Bytes)) (f : Nat) (acc : List (Bytes × Bytes)) (tail : Bytes),
      (∀ p ∈ hs, HeaderPairWF p) → hs.length < f →
      clientHeaderLinesF f (emitHeaders hs ++ '\r' :: '\n' :: tail) acc =
        some (acc.reverse ++
          hs.map (fun p => (trimSpace p.1, trimSpace (' ' :: p.2))), tail) := by
  intro hs
  induction hs with
  | nil =>
      intro f acc tail _ hf
      cases f with
      | zero => exact absurd hf (by omega)
      | succ g => simp [clientHeaderLinesF, emitHeaders, readLineCRLF]
  | cons p rest ih =>
      intro f acc tail hwf hf
      obtain ⟨k, v⟩ := p
      obtain ⟨⟨hkcr, hkcolon, _⟩, hvcr⟩ := hwf (k, v) (List.mem_cons_self _ _)
      have hwfrest : ∀ q ∈ rest, HeaderPairWF q :=
        fun q hq => hwf q (List.mem_cons_of_mem _ hq)
      cases f with
      | zero => exact absurd hf (by omega)
      | succ g =>
          have hg : rest.length < g := by
            simp only [List.length_cons] at hf
            omega
          have hshape : emitHeaders ((k, v) :: rest) ++ '\r' :: '\n' :: tail =
              (k ++ ':' :: ' ' :: v) ++ '\r' :: '\n' ::
                (emitHeaders rest ++ '\r' :: '\n' :: tail) := by
            simp [emitHeaders, List.append_assoc]
          have hnocr : '\r' ∉ k ++ ':' :: ' ' :: v := by
            intro hmem
            rcases List.mem_append.mp hmem with h1 | h2
            · exact hkcr h1
            · simp only [List.mem_cons] at h2
              rcases h2 with h3 | h3 | h3
              · exact absurd h3 (by decide)
              · exact absurd h3 (by decide)
              · exact hvcr h3
          have hlne : ¬ (k ++ ':' :: ' ' :: v = []) := by simp
          rw [hshape]
          show clientHeaderLinesF (g + 1) _ acc = _
          unfold clientHeaderLinesF
          rw [readLineCRLF_boundary _ _ hnocr]
          simp only [hlne, if_false]
          rw [splitFirst_boundary ':' k (' ' :: v) hkcolon]
          simp only
          rw [ih g _ tail hwfrest hg]
          simp [List.append_assoc]

/-- Looking up `Content-Length` in the client's view of the header block:
all earlier names trim to something else, so the appended serializer entry
is found. -/
theorem assocLookup_map_trim_last (l : List (Bytes × Bytes)) (d : Bytes)
    (hne : ∀ p ∈ l, trimSpace p.1 ≠ "Content-Length".data) :
    assocLookup ((l ++ [("Content-Length".data, d)]).map
        (fun p => (trimSpace p.1, trimSpace (' ' :: p.2))))
      "Content-Length".data = some (trimSpace (' ' :: d)) := by
  induction l with
  | nil =>
      simp [assocLookup,
        show trimSpace "Content-Length".data = "Content-Length".data from by decide]
  | cons q rest ih =>
      obtain ⟨qk, qv⟩ := q
      have hq := hne (qk, qv) (List.mem_cons_self _ _)
      simp only [List.cons_append, List.map_cons, assocLookup, hq, if_false]
      exact ih (fun p hp => hne p (List.mem_cons_of_mem _ hp))

/-! ## Parser claims -/

/-- C1 (code bug): a POST request announcing `Content-Length: -1` crashes
the parse — `strconv.Atoi` accepts the negative numeral, and
`make([]byte, -1)` then panics at runtime — instead of returning the
invalid-Content-Length error the spec requires for values that are not
non-negative integers. -/
theorem C1_negative_content_length_crashes :
    parseRequest "POST / HTTP/1.1\r\nContent-Length: -1\r\n\r\n".data =
      .crashed := by decide

/-- C8 counterexample: the request line `FOO / HTTP/1.1` parses
successfully, with the method set to the token `FOO`, which is outside the
enumerated method set. -/
theorem C8_method_cex :
    parseRequest "FOO / HTTP/1.1\r\n\r\n".data =
      .ok ⟨"FOO".data, "HTTP/1.1".data, "/".data, [], none, []⟩ ∧
    "FOO".data ∉ ["GET".data, "POST".data, "PUT".data, "PATCH".data,
      "DELETE".data] := by decide

/-- C8 (amended): the parser does not validate the method — any non-empty
first token free of spaces and line breaks is stored verbatim as the method
of a successfully parsed request. -/
theorem C8_method_token_verbatim (tok : Bytes)
    (hsp : ' ' ∉ tok) (hlf : '\n' ∉ tok) :
    parseRequest (tok ++ " / HTTP/1.1\r\n\r\n".data) =
      .ok ⟨tok, "HTTP/1.1".data, "/".data, [], none, []⟩ := by
  have hsplit : splitFirst '\n' (tok ++ " / HTTP/1.1\r\n\r\n".data) =
      some (tok ++ " / HTTP/1.1\r".data, "\r\n".data) := by
    rw [show (" / HTTP/1.1\r\n\r\n".data : Bytes) =
          " / HTTP/1.1\r".data ++ '\n' :: "\r\n".data from rfl,
        ← List.append_assoc]
    refine splitFirst_boundary '\n' _ _ ?_
    intro hmem
    rcases List.mem_append.mp hmem with h1 | h2
    · exact hlf h1
    · revert h2; decide
  have hline : trimRightCRLF ((tok ++ " / HTTP/1.1\r".data) ++ ['\n']) =
      tok ++ " / HTTP/1.1".data := by
    rw [List.append_assoc,
        show (" / HTTP/1.1\r".data ++ ['\n'] : Bytes) =
          " / HTTP/1.1\r\n".data from rfl,
        trimRightCRLF_append tok _ (by decide),
        show trimRightCRLF " / HTTP/1.1\r\n".data = " / HTTP/1.1".data
          from by decide]
  have hne2 : ¬ (tok ++ " / HTTP/1.1".data = []) := by
    intro h0
    have h2 := (List.append_eq_nil.mp h0).2
    revert h2
    decide
  have hsplit3 : splitN3 ' ' (tok ++ " / HTTP/1.1".data) =
      [tok, "/".data, "HTTP/1.1".data] := by
    unfold splitN3
    rw [show (" / HTTP/1.1".data : Bytes) = ' ' :: "/ HTTP/1.1".data from rfl]
    simp only [splitFirst_boundary ' ' tok "/ HTTP/1.1".data hsp,
      show splitFirst ' ' "/ HTTP/1.1".data =
        some ("/".data, "HTTP/1.1".data) from by decide]
  unfold parseRequest readLineLF
  simp only [hsplit, hline, hne2, if_false, hsplit3,
    show parseHeaders "\r\n".data = some ([], []) from by decide, if_pos rfl]
  by_cases hp : tok = "POST".data <;> simp [hp, assocLookup]

/-- C8 amended-claim witness: the non-enumerated token `XYZ`. -/
theorem C8_method_token_verbatim_witness :
    parseRequest ("XYZ".data ++ " / HTTP/1.1\r\n\r\n".data) =
      .ok ⟨"XYZ".data, "HTTP/1.1".data, "/".data, [], none, []⟩ :=
  C8_method_token_verbatim "XYZ".data (by decide) (by decide)

/-- C10: the pipeline's request-header reads are case-sensitive exact
matches.  Whenever the exact key `Connection` is absent (even if a variant
like `connection` is present), a non-error response is serialized with
`keep-alive`; whenever `Accept-Encoding` is absent, a fixed body goes out
uncompressed and untouched; and a parsed request whose header map has no
exact `Content-Length` key carries no body. -/
theorem C10_case_sensitive_header_reads :
    (∀ (req : Request) (r : Response),
      assocLookup req.headers "Connection".data = none →
      isErrorStatus r.status = false →
      assocLookup (respondPlan req r).headers "Connection".data =
        some "keep-alive".data) ∧
    (∀ (req : Request) (r : Response),
      assocLookup req.headers "Accept-Encoding".data = none →
      r.bodyReader = none →
      (respondPlan req r).bodyToWrite = r.body ∧
      assocLookup (respondPlan req r).headers "Content-Encoding".data =
        assocLookup r.headers "Content-Encoding".data) ∧
    (∀ (s : Bytes) (r' : Request),
      parseRequest s = .ok r' →
      assocLookup r'.headers "Content-Length".data = none →
      r'.body = none) := by
  refine ⟨?_, ?_, ?_⟩
  · intro req r hconn herr
    rw [lookup_plan_connection]
    refine congrArg some ?_
    unfold connectionValue
    rw [if_neg]
    simp [hconn, herr]
  · intro req r hae hbr
    have hgz : acceptsGzip req = false := by
      unfold acceptsGzip
      rw [hae]
    cases hb : r.body with
    | some b =>
        have hplan : respondPlan req r = ⟨headersWithCL req r, some b, none⟩ := by
          unfold respondPlan
          rw [hbr, hb, hgz]
        refine ⟨by simp [hplan, hb], ?_⟩
        rw [hplan]
        show assocLookup (headersWithCL req r) "Content-Encoding".data = _
        rw [lookup_headersWithCL_ne _ _ _ (by decide),
            lookup_headersWithConnection_ne _ _ _ (by decide)]
    | none =>
        have hplan : respondPlan req r = ⟨headersWithCL req r, none, none⟩ := by
          unfold respondPlan
          rw [hbr, hb]
        refine ⟨by simp [hplan, hb], ?_⟩
        rw [hplan]
        show assocLookup (headersWithCL req r) "Content-Encoding".data = _
        rw [lookup_headersWithCL_ne _ _ _ (by decide),
            lookup_headersWithConnection_ne _ _ _ (by decide)]
  · intro s r' hok hcl
    unfold parseRequest at hok
    cases hrl : readLineLF s with
    | none => rw [hrl] at hok; cases hok
    | some lr =>
        obtain ⟨line, rest⟩ := lr
        rw [hrl] at hok
        simp only at hok
        by_cases h1 : trimRightCRLF line = []
        · rw [if_pos h1] at hok; cases hok
        · rw [if_neg h1] at hok
          cases h2 : splitN3 ' ' (trimRightCRLF line) with
          | nil => rw [h2] at hok; cases hok
          | cons a tl =>
              cases tl with
              | nil => rw [h2] at hok; cases hok
              | cons b tl2 =>
                  cases tl2 with
                  | nil => rw [h2] at hok; cases hok
                  | cons c tl3 =>
                      cases tl3 with
                      | cons d tl4 => rw [h2] at hok; cases hok
                      | nil =>
                          rw [h2] at hok
                          simp only at hok
                          by_cases h3 : c = "HTTP/1.1".data
                          · rw [if_pos h3] at hok
                            cases h4 : parseHeaders rest with
                            | none => rw [h4] at hok; cases hok
                            | some hr =>
                                obtain ⟨hs, rest2⟩ := hr
                                rw [h4] at hok
                                simp only at hok
                                by_cases h5 : a = "POST".data
                                · rw [if_pos h5] at hok
                                  cases h6 : assocLookup hs "Content-Length".data with
                                  | none =>
                                      rw [h6] at hok
                                      injection hok with hok2
                                      subst hok2
                                      rfl
                                  | some clStr =>
                                      rw [h6] at hok
                                      simp only at hok
                                      cases h7 : goAtoi clStr with
                                      | none => rw [h7] at hok; cases hok
                                      | some n =>
                                          rw [h7] at hok
                                          simp only at hok
                                          by_cases h8 : n < 0
                                          · rw [if_pos h8] at hok; cases hok
                                          · rw [if_neg h8] at hok
                                            by_cases h9 : rest2.length < n.toNat
                                            · rw [if_pos h9] at hok; cases hok
                                            · rw [if_neg h9] at hok
                                              injection hok with hok2
                                              subst hok2
                                              have hcl2 : assocLookup hs "Content-Length".data = none := hcl
                                              rw [h6] at hcl2
                                              cases hcl2
                                · rw [if_neg h5] at hok
                                  injection hok with hok2
                                  subst hok2
                                  rfl
                          · rw [if_neg h3] at hok; cases hok

/-- C10 witness: lowercase `connection: close`, `accept-encoding: gzip` and
`content-length: 5` are all ignored — keep-alive is kept, the body stays
uncompressed, and no request body is read. -/
theorem C10_case_sensitive_header_reads_witness :
    assocLookup (respondPlan
        ⟨"GET".data, "HTTP/1.1".data, "/".data,
          [("connection".data, "close".data)], none, []⟩
        ⟨.statusOK, [], some "hi".data, none⟩).headers "Connection".data =
      some "keep-alive".data ∧
    (respondPlan
        ⟨"GET".data, "HTTP/1.1".data, "/".data,
          [("accept-encoding".data, "gzip".data)], none, []⟩
        ⟨.statusOK, [], some "hi".data, none⟩).bodyToWrite =
      some "hi".data ∧
    (⟨"POST".data, "HTTP/1.1".data, "/".data,
        [("content-length".data, "5".data)], none, []⟩ : Request).body = none := by
  refine ⟨?_, ?_, ?_⟩
  · exact C10_case_sensitive_header_reads.1
      ⟨"GET".data, "HTTP/1.1".data, "/".data,
        [("connection".data, "close".data)], none, []⟩
      ⟨.statusOK, [], some "hi".data, none⟩ (by decide) (by decide)
  · exact (C10_case_sensitive_header_reads.2.1
      ⟨"GET".data, "HTTP/1.1".data, "/".data,
        [("accept-encoding".data, "gzip".data)], none, []⟩
      ⟨.statusOK, [], some "hi".data, none⟩ (by decide) rfl).1
  · exact C10_case_sensitive_header_reads.2.2
      "POST / HTTP/1.1\r\ncontent-length: 5\r\n\r\nhello".data
      ⟨"POST".data, "HTTP/1.1".data, "/".data,
        [("content-length".data, "5".data)], none, []⟩
      (by decide) (by decide)

/-- C3: serializing a fixed-body response with no pre-set `Content-Length`
to a client that did not offer gzip, then reading the bytes back as an
HTTP/1.1 client, recovers exactly the body and a `Content-Length` equal to
its byte length — `0` when the body is absent. -/
theorem C3_fixed_body_roundtrip (req : Request) (r : Response)
    (hbr : r.bodyReader = none)
    (hcl : assocLookup r.headers "Content-Length".data = none)
    (hgz : acceptsGzip req = false)
    (hwf : ∀ p ∈ r.headers, HeaderPairWF p) :
    clientParse (respond req r) =
      some ((r.body.getD []).length, r.body.getD []) ∧
    assocLookup (respondPlan req r).headers "Content-Length".data =
      some (natToDec (r.body.getD []).length) := by
  have hcl1 : assocLookup (headersWithConnection req r) "Content-Length".data = none := by
    rw [lookup_headersWithConnection_ne _ _ _ (by decide)]
    exact hcl
  have hdcl : defaultContentLength r.body = natToDec (r.body.getD []).length := by
    cases r.body <;> rfl
  have hWCL : headersWithCL req r =
      headersWithConnection req r ++
        [("Content-Length".data, natToDec (r.body.getD []).length)] := by
    unfold headersWithCL
    rw [if_pos (by rw [hcl1]; rfl), hdcl, assocSet_of_absent _ _ _ hcl1]
  have hplan : respondPlan req r = ⟨headersWithCL req r, r.body, none⟩ := by
    unfold respondPlan
    cases hb : r.body with
    | some b => rw [hbr, hgz]
    | none => rw [hbr]
  have hlookupCL : assocLookup (headersWithCL req r) "Content-Length".data =
      some (natToDec (r.body.getD []).length) := by
    rw [hWCL, assocLookup_append_of_none _ _ _ hcl1]
    simp [assocLookup]
  have hwfCV : '\r' ∉ connectionValue req r := by
    unfold connectionValue
    split <;> decide
  have hwfhwc : ∀ p ∈ headersWithConnection req r, HeaderPairWF p := by
    intro p hp
    rcases mem_assocSet _ _ _ p hp with hmem | rfl
    · exact hwf p hmem
    · exact ⟨⟨(by decide : '\r' ∉ "Connection".data),
          (by decide : ':' ∉ "Connection".data),
          (by decide : trimSpace "Connection".data = "Connection".data)⟩, hwfCV⟩
  have hwfFinal : ∀ p ∈ headersWithCL req r, HeaderPairWF p := by
    rw [hWCL]
    intro p hp
    rcases List.mem_append.mp hp with hmem | hmem
    · exact hwfhwc p hmem
    · rcases List.mem_singleton.mp hmem with rfl
      exact ⟨⟨(by decide : '\r' ∉ "Content-Length".data),
          (by decide : ':' ∉ "Content-Length".data),
          (by decide : trimSpace "Content-Length".data = "Content-Length".data)⟩,
        natToDec_no_cr _⟩
  have hresp : respond req r =
      statusLine r.status ++ '\r' :: '\n' ::
        (emitHeaders (headersWithCL req r) ++ '\r' :: '\n' :: (r.body.getD [])) := by
    unfold respond respondHead respondBody
    rw [hplan]
    simp [List.append_assoc]
  refine ⟨?_, by rw [hplan]; exact hlookupCL⟩
  rw [hresp]
  unfold clientParse
  rw [readLineCRLF_boundary _ _ (statusLine_no_cr r.status)]
  simp only
  rw [clientHeaderLinesF_emit (headersWithCL req r) _ [] _ hwfFinal
      (by
        have h1 := length_le_emitHeaders (headersWithCL req r)
        simp only [List.length_append, List.length_cons]
        omega)]
  simp only [List.reverse_nil, List.nil_append]
  rw [hWCL]
  rw [assocLookup_map_trim_last _ _
      (fun p hp => by
        rw [(hwfhwc p hp).1.2.2]
        exact assocLookup_none_forall _ _ hcl1 p hp)]
  rw [trimSpace_space_cons _ (natToDec_not_space _)]
  simp [decToNat_natToDec, List.take_length]

/-- C3 witness: a concrete response with body `hello` (recovered with
length 5) and one with no body (length 0). -/
theorem C3_fixed_body_roundtrip_witness :
    (clientParse (respond ⟨"GET".data, "HTTP/1.1".data, "/".data, [], none, []⟩
        ⟨.statusOK, [("X-Y".data, "z".data)], some "hello".data, none⟩) =
      some (5, "hello".data) ∧
      assocLookup (respondPlan ⟨"GET".data, "HTTP/1.1".data, "/".data, [], none, []⟩
          ⟨.statusOK, [("X-Y".data, "z".data)], some "hello".data, none⟩).headers
        "Content-Length".data = some "5".data) ∧
    (clientParse (respond ⟨"GET".data, "HTTP/1.1".data, "/".data, [], none, []⟩
        ⟨.statusOK, [], none, none⟩) = some (0, []) ∧
      assocLookup (respondPlan ⟨"GET".data, "HTTP/1.1".data, "/".data, [], none, []⟩
          ⟨.statusOK, [], none, none⟩).headers
        "Content-Length".data = some "0".data) :=
  ⟨C3_fixed_body_roundtrip
      ⟨"GET".data, "HTTP/1.1".data, "/".data, [], none, []⟩
      ⟨.statusOK, [("X-Y".data, "z".data)], some "hello".data, none⟩
      rfl (by decide) (by decide) (by decide),
    C3_fixed_body_roundtrip
      ⟨"GET".data, "HTTP/1.1".data, "/".data, [], none, []⟩
      ⟨.statusOK, [], none, none⟩
      rfl (by decide) (by decide) (by decide)⟩

end GoRakis
